import Mathlib

/-!
Shallow embedding of the access-metrics engine of the storage-proxy
repository: the file-snapshot `MetricsCollector`, the database-backed
`MetricsCollector`, and the metrics HTTP routes (export / clear).
Timestamps are modelled as natural numbers of milliseconds since the
Unix epoch; JavaScript `Map` and `Set` are modelled as insertion-ordered
association lists and duplicate-free lists.
-/

namespace StorageProxy

/-! ### Decimal rendering of numbers (JS string conversion of integers) -/

def digitChar (n : Nat) : Char :=
  match n with
  | 0 => '0' | 1 => '1' | 2 => '2' | 3 => '3' | 4 => '4'
  | 5 => '5' | 6 => '6' | 7 => '7' | 8 => '8' | _ => '9'

def natCharsGo : Nat → Nat → List Char
  | 0, _ => ['0']
  | fuel + 1, n =>
      if n < 10 then [digitChar n]
      else natCharsGo fuel (n / 10) ++ [digitChar (n % 10)]

/-- Decimal digits of `n` (fuel-based; `n` itself is always enough fuel). -/
def natChars (n : Nat) : List Char := natCharsGo n n

def natStr (n : Nat) : String := ⟨natChars n⟩

/-- Left-pad a digit string with '0' to the given width
(JS `String(n).padStart(w, "0")`, as `Date.toISOString` does). -/
def padChars (w : Nat) (l : List Char) : List Char :=
  List.replicate (w - l.length) '0' ++ l

def pad2 (n : Nat) : List Char := padChars 2 (natChars n)

def pad3 (n : Nat) : List Char := padChars 3 (natChars n)

def pad4 (n : Nat) : List Char := padChars 4 (natChars n)

/-! ### `Date.prototype.toISOString`
Civil-calendar conversion from days since 1970-01-01 (proleptic
Gregorian), then `YYYY-MM-DDTHH:mm:ss.sssZ` formatting. -/

def civilFromDays (days : Nat) : Nat × Nat × Nat :=
  let z := days + 719468
  let era := z / 146097
  let doe := z % 146097
  let yoe := (doe - doe / 1460 + doe / 36524 - doe / 146097) / 365
  let y := yoe + era * 400
  let doy := doe - (365 * yoe + yoe / 4 - yoe / 100)
  let mp := (5 * doy + 2) / 153
  let d := doy - (153 * mp + 2) / 5 + 1
  let m := if mp < 10 then mp + 3 else mp - 9
  (if m ≤ 2 then y + 1 else y, m, d)

def isoChars (t : Nat) : List Char :=
  let ms := t % 1000
  let totalSecs := t / 1000
  let ss := totalSecs % 60
  let totalMins := totalSecs / 60
  let mm := totalMins % 60
  let totalHours := totalMins / 60
  let hh := totalHours % 24
  let days := totalHours / 24
  let ymd := civilFromDays days
  pad4 ymd.1 ++ ['-'] ++ pad2 ymd.2.1 ++ ['-'] ++ pad2 ymd.2.2 ++ ['T'] ++
    pad2 hh ++ [':'] ++ pad2 mm ++ [':'] ++ pad2 ss ++ ['.'] ++ pad3 ms ++ ['Z']

def isoString (t : Nat) : String := ⟨isoChars t⟩

/-! ### JavaScript `Set` and `Map` as insertion-ordered lists -/

/-- `Set.prototype.add`: append if absent, keep insertion order. -/
def setAdd (l : List String) (u : String) : List String :=
  if u ∈ l then l else l ++ [u]

/-- `[...new Set(arr)]`: first-occurrence deduplication. -/
def dedupFirst (l : List String) : List String :=
  l.foldl setAdd []

/-- `arr.slice(-k)`: the last `k` elements, or the whole array when `k = 0`
(JS `slice(-0)` is `slice(0)`). -/
def jsSliceNeg (k : Nat) (l : List α) : List α :=
  if k = 0 then l else l.drop (l.length - k)

/-- Lookup in an insertion-ordered association list (`Map.prototype.get`). -/
def mapGet (m : List (String × α)) (k : String) : Option α :=
  match m with
  | [] => none
  | (k', v) :: rest => if k' = k then some v else mapGet rest k

/-- `Map.prototype.set`: replace in place if the key exists, else append. -/
def mapSet (m : List (String × α)) (k : String) (v : α) : List (String × α) :=
  match m with
  | [] => [(k, v)]
  | (k', v') :: rest =>
      if k' = k then (k, v) :: rest else (k', v') :: mapSet rest k v

/-! ### File-snapshot `MetricsCollector` (first variant in the source)

`MetricEntry` carries `lastAccessed : Option Nat` because the source
initializes it to `null`, and `recentUsers` as a duplicate-free
insertion-ordered list modelling a JS `Set<string>`. -/

structure MetricEntry where
  container : String
  blob : String
  totalAccesses : Nat
  firstAccessed : Nat
  lastAccessed : Option Nat
  recentUsers : List String
  deriving Repr, DecidableEq

structure FSState where
  accessMetrics : List (String × MetricEntry)
  isShuttingDown : Bool
  deriving Repr, DecidableEq

def FSState.empty : FSState := ⟨[], false⟩

/-- The file-snapshot collector's `maxRecentUsers` (constructor constant). -/
def fsMaxRecentUsers : Nat := 100

/-- `AccessEventSchema.parse` succeeds iff all three strings are non-empty. -/
def accessEventValid (container blob userId : String) : Bool :=
  container ≠ "" && blob ≠ "" && userId ≠ ""

/-- The recent-users trim in `recordAccess`: when the set exceeds
`max` members, keep only the `Math.floor(max * 0.7)` most recent. -/
def trimRecentUsers (max : Nat) (l : List String) : List String :=
  if l.length > max then jsSliceNeg (max * 7 / 10) l else l

/-- `MetricsCollector.recordAccess` of the file-snapshot variant.
Invalid input is rejected (caught and logged in the source, so the state
is returned unchanged and no error escapes); during shutdown the event
is dropped; otherwise the entry for `container/blob` is created or
updated in place.  `now` is the timestamp the call observes. -/
def recordAccess (max : Nat) (s : FSState) (container blob userId : String)
    (now : Nat) : FSState :=
  if accessEventValid container blob userId then
    if s.isShuttingDown then s
    else
      let key := container ++ "/" ++ blob
      let metric := (mapGet s.accessMetrics key).getD
        ⟨container, blob, 0, now, none, []⟩
      let metric' : MetricEntry :=
        { metric with
            totalAccesses := metric.totalAccesses + 1,
            lastAccessed := some now,
            recentUsers := trimRecentUsers max (setAdd metric.recentUsers userId) }
      { s with accessMetrics := mapSet s.accessMetrics key metric' }
  else s

/-- Serialized form of a `MetricEntry` as written to a snapshot file
(timestamps as ISO-8601 strings, `recentUsers` as an array). -/
structure SerializedMetricEntry where
  container : String
  blob : String
  totalAccesses : Nat
  firstAccessed : String
  lastAccessed : Option String
  recentUsers : List String
  deriving Repr, DecidableEq

def serializeEntry (e : MetricEntry) : SerializedMetricEntry :=
  ⟨e.container, e.blob, e.totalAccesses, isoString e.firstAccessed,
    e.lastAccessed.map isoString, e.recentUsers⟩

/-- The snapshot `persistMetrics` writes to disk (and `forcePersist`
forces): the serialization of every in-memory entry, keyed by
`container/blob`.  The in-memory map itself is not modified. -/
def persistSnapshot (s : FSState) : List (String × SerializedMetricEntry) :=
  s.accessMetrics.map (fun kv => (kv.1, serializeEntry kv.2))

/-- Apply a sequence of `recordAccess` calls for one `(container, blob)`
key; each element of `evs` is a `(userId, timestamp)` pair. -/
def applyEvents (max : Nat) (s : FSState) (container blob : String)
    (evs : List (String × Nat)) : FSState :=
  evs.foldl (fun st e => recordAccess max st container blob e.1 e.2) s

/-! ### Map and trim lemmas -/

theorem mapGet_mapSet_self (m : List (String × α)) (k : String) (v : α) :
    mapGet (mapSet m k v) k = some v := by
  induction m with
  | nil => simp [mapSet, mapGet]
  | cons hd tl ih =>
      obtain ⟨k', v'⟩ := hd
      by_cases h : k' = k
      · simp [mapSet, mapGet, h]
      · simp [mapSet, mapGet, h, ih]

theorem mapGet_map (f : α → β) (m : List (String × α)) (k : String) :
    mapGet (m.map (fun kv => (kv.1, f kv.2))) k = (mapGet m k).map f := by
  induction m with
  | nil => simp [mapGet]
  | cons hd tl ih =>
      obtain ⟨k', v⟩ := hd
      by_cases h : k' = k <;> simp [mapGet, h, ih]

theorem trimRecentUsers_singleton (max : Nat) (u : String) :
    trimRecentUsers max [u] = [u] := by
  unfold trimRecentUsers jsSliceNeg
  split
  · next h =>
      have : max = 0 := by simpa using h
      subst this
      simp
  · rfl

theorem recordAccess_isShuttingDown (max : Nat) (s : FSState)
    (c b u : String) (t : Nat) :
    (recordAccess max s c b u t).isShuttingDown = s.isShuttingDown := by
  unfold recordAccess
  split
  · split
    · rfl
    · rfl
  · rfl

/-- One valid `recordAccess` call on a state not shutting down, looked up
at its own key. -/
theorem recordAccess_lookup (max : Nat) (s : FSState)
    (c b u : String) (t : Nat)
    (hv : accessEventValid c b u = true)
    (hrun : s.isShuttingDown = false) :
    mapGet (recordAccess max s c b u t).accessMetrics (c ++ "/" ++ b) =
      some (let metric := (mapGet s.accessMetrics (c ++ "/" ++ b)).getD
              ⟨c, b, 0, t, none, []⟩
            { metric with
                totalAccesses := metric.totalAccesses + 1,
                lastAccessed := some t,
                recentUsers :=
                  trimRecentUsers max (setAdd metric.recentUsers u) }) := by
  unfold recordAccess
  simp only [hv, hrun, if_true, Bool.false_eq_true, if_false]
  exact mapGet_mapSet_self _ _ _

/-- Fold invariant for a sequence of same-key `recordAccess` calls:
the running entry keeps its container, blob and `firstAccessed`,
adds one access per event, and tracks the last event's timestamp. -/
theorem applyEvents_lookup (max : Nat) (container blob : String)
    (hc : container ≠ "") (hb : blob ≠ "") :
    ∀ (evs : List (String × Nat)) (s : FSState) (tot first : Nat)
      (last0 : Option Nat) (ru : List String),
      (∀ e ∈ evs, e.1 ≠ "") →
      s.isShuttingDown = false →
      mapGet s.accessMetrics (container ++ "/" ++ blob) =
        some ⟨container, blob, tot, first, last0, ru⟩ →
      ∃ ru', mapGet (applyEvents max s container blob evs).accessMetrics
          (container ++ "/" ++ blob) =
        some ⟨container, blob, tot + evs.length, first,
          (evs.map (fun e => some e.2)).getLastD last0, ru'⟩ := by
  intro evs
  induction evs with
  | nil =>
      intro s tot first last0 ru _ _ hget
      exact ⟨ru, by simpa [applyEvents] using hget⟩
  | cons e rest ih =>
      intro s tot first last0 ru hu hrun hget
      have hv : accessEventValid container blob e.1 = true := by
        have he : e.1 ≠ "" := hu e (by simp)
        simp [accessEventValid, hc, hb, he]
      have hstep := recordAccess_lookup max s container blob e.1 e.2 hv hrun
      rw [hget] at hstep
      have hrun' : (recordAccess max s container blob e.1 e.2).isShuttingDown
          = false := by
        rw [recordAccess_isShuttingDown]; exact hrun
      have happly : applyEvents max s container blob (e :: rest) =
          applyEvents max (recordAccess max s container blob e.1 e.2)
            container blob rest := by
        simp [applyEvents]
      rw [happly]
      obtain ⟨ru', hru'⟩ := ih (recordAccess max s container blob e.1 e.2)
        (tot + 1) first (some e.2)
        (trimRecentUsers max (setAdd ru e.1))
        (fun x hx => hu x (by simp [hx])) hrun' (by simpa using hstep)
      refine ⟨ru', ?_⟩
      have hlast : ((e :: rest).map (fun x => some x.2)).getLastD last0
          = (rest.map (fun x => some x.2)).getLastD (some e.2) := by
        rw [List.map_cons, List.getLastD_cons]
      have harith : tot + 1 + rest.length = tot + (rest.length + 1) := by omega
      rw [hru', hlast, List.length_cons, harith]

theorem getLastD_map (g : α → β) (l : List α) (d : α) :
    (l.map g).getLastD (g d) = g (l.getLastD d) := by
  induction l generalizing d with
  | nil => rfl
  | cons a t ih =>
      rw [List.map_cons, List.getLastD_cons, List.getLastD_cons]
      exact ih a

theorem getLastD_map_some (rest : List (String × Nat)) (e0 : String × Nat) :
    (rest.map (fun e => some e.2)).getLastD (some e0.2) =
      some ((rest.getLastD e0).2) :=
  getLastD_map (fun e => some e.2) rest e0

/-- C1: for every sequence of valid `recordAccess` calls to the same
`(container, blob)` key, starting from a state where the key is absent
and the collector is not shutting down, the stored entry for that key
(also as serialized by a forced flush) has `totalAccesses` equal to the
number of calls, `firstAccessed` equal to the timestamp of the first
call, and `lastAccessed` equal to the timestamp of the last call. -/
theorem recordAccess_sequence_counts (max : Nat) (container blob : String)
    (hc : container ≠ "") (hb : blob ≠ "")
    (e0 : String × Nat) (rest : List (String × Nat))
    (hu : ∀ e ∈ e0 :: rest, e.1 ≠ "")
    (s : FSState) (hrun : s.isShuttingDown = false)
    (habsent : mapGet s.accessMetrics (container ++ "/" ++ blob) = none) :
    ∃ entry : MetricEntry,
      mapGet (applyEvents max s container blob (e0 :: rest)).accessMetrics
        (container ++ "/" ++ blob) = some entry ∧
      entry.totalAccesses = (e0 :: rest).length ∧
      entry.firstAccessed = e0.2 ∧
      entry.lastAccessed = some ((rest.getLastD e0).2) ∧
      mapGet (persistSnapshot (applyEvents max s container blob (e0 :: rest)))
        (container ++ "/" ++ blob) = some (serializeEntry entry) := by
  have hv : accessEventValid container blob e0.1 = true := by
    have he : e0.1 ≠ "" := hu e0 (by simp)
    simp [accessEventValid, hc, hb, he]
  have hstep := recordAccess_lookup max s container blob e0.1 e0.2 hv hrun
  rw [habsent] at hstep
  simp only [Option.getD_none] at hstep
  have hrun' : (recordAccess max s container blob e0.1 e0.2).isShuttingDown
      = false := by
    rw [recordAccess_isShuttingDown]; exact hrun
  have happly : applyEvents max s container blob (e0 :: rest) =
      applyEvents max (recordAccess max s container blob e0.1 e0.2)
        container blob rest := by
    simp [applyEvents]
  obtain ⟨ru', hru'⟩ := applyEvents_lookup max container blob hc hb rest
    (recordAccess max s container blob e0.1 e0.2) 1 e0.2 (some e0.2)
    (trimRecentUsers max (setAdd [] e0.1))
    (fun x hx => hu x (by simp [hx])) hrun'
    (by simpa [setAdd, trimRecentUsers_singleton] using hstep)
  refine ⟨_, by rw [happly]; exact hru', ?_, rfl, ?_, ?_⟩
  · simp [Nat.add_comm]
  · simp [getLastD_map_some]
  · rw [persistSnapshot, mapGet_map, happly, hru']
    rfl

/-! ### Database-backed `MetricsCollector` (second variant in the source)

Its `recordAccess` checks `isShuttingDown` first, validates with
`accessEventSchema` — whose fields are plain `z.string()`, so every
string (including the empty string) passes — appends the event to
`accessBuffer`, and drops the oldest events when the buffer exceeds
`maxBufferSize` (`slice(-maxBufferSize)`). -/

structure DbAccessEvent where
  container : String
  blob : String
  userId : String
  timestamp : Nat
  deriving Repr, DecidableEq

structure DBState where
  accessBuffer : List DbAccessEvent
  isShuttingDown : Bool
  deriving Repr, DecidableEq

def dbMaxBufferSize : Nat := 1000

def dbRecordAccess (maxBufferSize : Nat) (s : DBState)
    (container blob userId : String) (now : Nat) : DBState :=
  if s.isShuttingDown then s
  else
    let buf := s.accessBuffer ++ [⟨container, blob, userId, now⟩]
    let buf' := if buf.length > maxBufferSize then jsSliceNeg maxBufferSize buf
                else buf
    { s with accessBuffer := buf' }

/-- Counterexample to C2 as stated: in the db-backed variant, a
`recordAccess` call with an empty container string is not rejected —
the event passes `accessEventSchema` (plain `z.string()` fields) and is
admitted into the pending buffer, hence counted. -/
theorem dbRecordAccess_admits_empty_cex :
    (dbRecordAccess 1000 ⟨[], false⟩ "" "blob" "user" 5).accessBuffer
      = [⟨"", "blob", "user", 5⟩] := by
  decide

/-- C2 amended: `recordAccess` never raises an error to its caller in
either variant; in the file-snapshot variant an empty input string
causes the event to be rejected (not counted) and only logged, the call
returning normally (modelled: the state is unchanged); in the db-backed
variant empty strings pass validation and the event is admitted to the
pending buffer like any other. -/
theorem recordAccess_error_handling_amended (max maxBuf : Nat)
    (fs : FSState) (dbs : DBState) (c b u : String) (t : Nat)
    (hinv : accessEventValid c b u = false)
    (hrun : dbs.isShuttingDown = false)
    (hroom : dbs.accessBuffer.length < maxBuf) :
    recordAccess max fs c b u t = fs ∧
    (dbRecordAccess maxBuf dbs c b u t).accessBuffer
      = dbs.accessBuffer ++ [⟨c, b, u, t⟩] := by
  constructor
  · unfold recordAccess
    rw [hinv]
    simp
  · unfold dbRecordAccess
    rw [hrun]
    simp
    intro h2
    exact absurd h2 (by omega)

/-- Witness for C2 amended: an empty container on both variants. -/
theorem recordAccess_error_handling_amended_witness :
    recordAccess 100 FSState.empty "" "b" "u" 7 = FSState.empty ∧
    (dbRecordAccess 1000 ⟨[], false⟩ "" "b" "u" 7).accessBuffer
      = ([] : List DbAccessEvent) ++ [⟨"", "b", "u", 7⟩] :=
  recordAccess_error_handling_amended 100 1000 FSState.empty ⟨[], false⟩
    "" "b" "u" 7 (by decide) rfl (by decide)

/-! ### `aggregateEvents` of the db-backed variant -/

structure MetricUpdate where
  container : String
  blob : String
  accessCount : Nat
  firstAccessed : Nat
  lastAccessed : Nat
  recentUsers : List String
  deriving Repr, DecidableEq

def DbAccessEvent.key (e : DbAccessEvent) : String :=
  e.container ++ "/" ++ e.blob

/-- The `existing` branch of `aggregateEvents`: bump the count, set
`lastAccessed` to this event's timestamp, add the user. -/
def applyEventToUpdate (u : MetricUpdate) (e : DbAccessEvent) : MetricUpdate :=
  { u with
      accessCount := u.accessCount + 1,
      lastAccessed := e.timestamp,
      recentUsers := setAdd u.recentUsers e.userId }

/-- The fresh-key branch of `aggregateEvents`. -/
def newUpdate (e : DbAccessEvent) : MetricUpdate :=
  ⟨e.container, e.blob, 1, e.timestamp, e.timestamp, [e.userId]⟩

def aggregateStep (m : List (String × MetricUpdate)) (e : DbAccessEvent) :
    List (String × MetricUpdate) :=
  match mapGet m e.key with
  | some u => mapSet m e.key (applyEventToUpdate u e)
  | none => mapSet m e.key (newUpdate e)

/-- `MetricsCollector.aggregateEvents` (db-backed variant), keeping the
`updateMap` as an insertion-ordered association list; the source returns
`Array.from(updateMap.values())`, i.e. `(aggregateEvents evs).map Prod.snd`. -/
def aggregateEvents (events : List DbAccessEvent) :
    List (String × MetricUpdate) :=
  events.foldl aggregateStep []

theorem mapGet_mapSet_ne (m : List (String × α)) (k' k : String) (v : α)
    (h : k' ≠ k) : mapGet (mapSet m k' v) k = mapGet m k := by
  induction m with
  | nil => simp [mapSet, mapGet, h, Ne.symm h]
  | cons hd tl ih =>
      obtain ⟨k0, v0⟩ := hd
      by_cases h0 : k0 = k'
      · subst h0
        simp [mapSet, mapGet, h, Ne.symm h]
      · simp [mapSet, mapGet, h0, ih]

/-- Lookup after folding `aggregateStep`, relative to an arbitrary
accumulator: the events with the looked-up key are folded into the
existing update, or a fresh one started from the first of them. -/
theorem aggregateFold_lookup (k : String) :
    ∀ (events : List DbAccessEvent) (acc : List (String × MetricUpdate)),
      mapGet (events.foldl aggregateStep acc) k =
        match mapGet acc k, events.filter (fun e => e.key = k) with
        | some u, fs => some (fs.foldl applyEventToUpdate u)
        | none, [] => none
        | none, f :: fs => some (fs.foldl applyEventToUpdate (newUpdate f)) := by
  intro events
  induction events with
  | nil =>
      intro acc
      cases h : mapGet acc k <;> simp [h]
  | cons e evs ih =>
      intro acc
      rw [List.foldl_cons, ih]
      by_cases hk : e.key = k
      · subst hk
        have hfe : (e :: evs).filter (fun x => x.key = e.key)
            = e :: evs.filter (fun x => x.key = e.key) := by simp
        rw [hfe]
        cases h : mapGet acc e.key with
        | some u =>
            simp only [aggregateStep, h, mapGet_mapSet_self, List.foldl_cons]
        | none =>
            simp only [aggregateStep, h, mapGet_mapSet_self, List.foldl_cons]
      · have hne : e.key ≠ k := hk
        have hfilter : (e :: evs).filter (fun x => x.key = k)
            = evs.filter (fun x => x.key = k) := by
          simp [List.filter_cons, hk]
        cases h : mapGet acc k with
        | some u =>
            simp only [aggregateStep, hfilter]
            cases h2 : mapGet acc e.key <;>
              simp [mapGet_mapSet_ne _ _ _ _ hne, h]
        | none =>
            simp only [aggregateStep, hfilter]
            cases h2 : mapGet acc e.key <;>
              simp [mapGet_mapSet_ne _ _ _ _ hne, h]

theorem foldl_applyEventToUpdate_spec (fs : List DbAccessEvent)
    (u0 : MetricUpdate) :
    fs.foldl applyEventToUpdate u0 =
      ⟨u0.container, u0.blob, u0.accessCount + fs.length, u0.firstAccessed,
        (fs.map DbAccessEvent.timestamp).getLastD u0.lastAccessed,
        fs.foldl (fun acc e => setAdd acc e.userId) u0.recentUsers⟩ := by
  induction fs generalizing u0 with
  | nil => rfl
  | cons a l ih =>
      rw [List.foldl_cons, ih]
      simp only [applyEventToUpdate, List.map_cons, List.getLastD_cons,
        List.length_cons, List.foldl_cons]
      rw [MetricUpdate.mk.injEq]
      exact ⟨rfl, rfl, by omega, rfl, rfl, rfl⟩

/-- Counterexample to C3 as stated: two same-key events with timestamps
`[5, 3]` produce a delta whose `firstAccessed` is `5` (not the minimum
`3`) and whose `lastAccessed` is `3` (not the maximum `5`). -/
theorem aggregateEvents_not_minmax_cex :
    (aggregateEvents [⟨"c", "b", "u1", 5⟩, ⟨"c", "b", "u2", 3⟩]).map Prod.snd
      = [⟨"c", "b", 2, 5, 3, ["u1", "u2"]⟩] ∧
    min (5 : Nat) 3 = 3 ∧ max (5 : Nat) 3 = 5 ∧
    (5 : Nat) ≠ 3 ∧ (3 : Nat) ≠ 5 := by
  refine ⟨by decide, by decide, by decide, by decide, by decide⟩

/-- C3 amended: for every batch, `aggregateEvents` groups events by
`container/blob` key and produces per key a delta with `accessCount`
equal to the number of events for that key, `firstAccessed` equal to the
timestamp of the *first* event for that key in batch order,
`lastAccessed` equal to the timestamp of the *last* event for that key
in batch order (the minimum and maximum only when the batch is
timestamp-ordered), and `recentUsers` the set of userIds of those events
in first-occurrence order; keys with no event get no delta. -/
theorem aggregateEvents_characterization (events : List DbAccessEvent)
    (k : String) :
    (events.filter (fun e => e.key = k) = [] →
      mapGet (aggregateEvents events) k = none) ∧
    (∀ (f : DbAccessEvent) (fs : List DbAccessEvent),
      events.filter (fun e => e.key = k) = f :: fs →
      mapGet (aggregateEvents events) k = some
        ⟨f.container, f.blob, 1 + fs.length, f.timestamp,
          (fs.getLastD f).timestamp,
          dedupFirst ((f :: fs).map DbAccessEvent.userId)⟩) := by
  constructor
  · intro hfilter
    rw [aggregateEvents, aggregateFold_lookup k events []]
    simp [mapGet, hfilter]
  · intro f fs hfilter
    rw [aggregateEvents, aggregateFold_lookup k events []]
    simp only [mapGet, hfilter]
    rw [foldl_applyEventToUpdate_spec]
    have hlast : (fs.map DbAccessEvent.timestamp).getLastD
        (newUpdate f).lastAccessed = (fs.getLastD f).timestamp := by
      exact getLastD_map DbAccessEvent.timestamp fs f
    have husers : fs.foldl (fun acc e => setAdd acc e.userId)
        (newUpdate f).recentUsers
        = dedupFirst ((f :: fs).map DbAccessEvent.userId) := by
      rw [dedupFirst, List.map_cons, List.foldl_cons, List.foldl_map]
      rfl
    rw [hlast, husers]
    rfl

/-- Witness for C3 amended: both branches at a concrete batch. -/
theorem aggregateEvents_characterization_witness :
    ((([⟨"c", "b", "u1", 5⟩, ⟨"c", "b", "u2", 3⟩] :
        List DbAccessEvent).filter (fun e => e.key = "x/y") = [] →
      mapGet (aggregateEvents [⟨"c", "b", "u1", 5⟩, ⟨"c", "b", "u2", 3⟩])
        "x/y" = none) ∧
    (∀ (f : DbAccessEvent) (fs : List DbAccessEvent),
      ([⟨"c", "b", "u1", 5⟩, ⟨"c", "b", "u2", 3⟩] :
        List DbAccessEvent).filter (fun e => e.key = "x/y") = f :: fs →
      mapGet (aggregateEvents [⟨"c", "b", "u1", 5⟩, ⟨"c", "b", "u2", 3⟩])
        "x/y" = some
        ⟨f.container, f.blob, 1 + fs.length, f.timestamp,
          (fs.getLastD f).timestamp,
          dedupFirst ((f :: fs).map DbAccessEvent.userId)⟩)) ∧
    mapGet (aggregateEvents [⟨"c", "b", "u1", 5⟩, ⟨"c", "b", "u2", 3⟩])
      "c/b" = some ⟨"c", "b", 2, 5, 3, ["u1", "u2"]⟩ := by
  refine ⟨aggregateEvents_characterization _ "x/y", ?_⟩
  have h := (aggregateEvents_characterization
    [⟨"c", "b", "u1", 5⟩, ⟨"c", "b", "u2", 3⟩] "c/b").2
    ⟨"c", "b", "u1", 5⟩ [⟨"c", "b", "u2", 3⟩] (by decide)
  simpa [dedupFirst, setAdd] using h

/-! ### Summary statistics -/

/-- JS `Math.round`: round half toward positive infinity. -/
def jsRound (q : ℚ) : ℤ := ⌊q + 1 / 2⌋

/-- `Math.round(x * 100) / 100`: round to 2 decimal places. -/
def roundTo2 (q : ℚ) : ℚ := (jsRound (q * 100) : ℚ) / 100

structure SummaryStats where
  totalFiles : Nat
  totalAccesses : Nat
  uniqueUsers : Nat
  uniqueContainers : Nat
  averageAccessesPerFile : ℚ
  deriving Repr, DecidableEq

/-- The aggregation body of the file-snapshot `getSummaryStats` over the
(possibly container-filtered) entry list. -/
def summaryOf (entries : List MetricEntry) : SummaryStats :=
  { totalFiles := entries.length
    totalAccesses := (entries.map MetricEntry.totalAccesses).sum
    uniqueUsers := (dedupFirst (entries.map MetricEntry.recentUsers).flatten).length
    uniqueContainers := (dedupFirst (entries.map MetricEntry.container)).length
    averageAccessesPerFile :=
      if entries.length > 0 then
        roundTo2 (((entries.map MetricEntry.totalAccesses).sum : ℚ) /
          (entries.length : ℚ))
      else 0 }

/-- `MetricsCollector.getSummaryStats` (file-snapshot variant): an empty
container filter throws a validation error; otherwise the stats over the
filtered entries. -/
def fsGetSummaryStats (s : FSState) (containerName : Option String) :
    Except String SummaryStats :=
  match containerName with
  | none => .ok (summaryOf (s.accessMetrics.map Prod.snd))
  | some c =>
      if c = "" then .error "Invalid container name"
      else .ok (summaryOf ((s.accessMetrics.map Prod.snd).filter
        (fun e => e.container = c)))

/-- A row of the `metrics` table of the db-backed variant. -/
structure DbRow where
  container : String
  blob : String
  totalAccesses : Nat
  firstAccessed : Nat
  lastAccessed : Nat
  recentUsers : List String
  updatedAt : Nat
  deriving Repr, DecidableEq

/-- The summary object built by the db-backed `getSummaryStats` — note:
it has no `averageAccessesPerFile` member. -/
structure DbSummaryStats where
  totalFiles : Nat
  totalAccesses : Nat
  uniqueUsers : Nat
  uniqueContainers : Nat
  deriving Repr, DecidableEq

def dbGetSummaryStats (rows : List DbRow) (container : Option String) :
    DbSummaryStats :=
  let filtered : List DbRow := match container with
    | some c => rows.filter (fun r => r.container = c)
    | none => rows
  { totalFiles := filtered.length
    totalAccesses := (filtered.map DbRow.totalAccesses).sum
    uniqueUsers := (dedupFirst (filtered.map DbRow.recentUsers).flatten).length
    uniqueContainers :=
      match container with
      | some _ => 1
      | none => (dedupFirst (filtered.map DbRow.container)).length }

/-- The JSON object the db-backed summary serializes to (field list in
source order). -/
def dbSummaryJson (st : DbSummaryStats) : List (String × Nat) :=
  [("totalFiles", st.totalFiles), ("totalAccesses", st.totalAccesses),
   ("uniqueUsers", st.uniqueUsers), ("uniqueContainers", st.uniqueContainers)]

/-- Counterexample to C4 as stated: the db-backed `getSummaryStats`
returns a record with no `averageAccessesPerFile` field at all. -/
theorem dbSummaryStats_no_average_cex :
    (dbSummaryJson (dbGetSummaryStats [⟨"c", "b", 3, 0, 0, ["u"], 0⟩] none)).lookup
      "averageAccessesPerFile" = none ∧
    (dbSummaryJson (dbGetSummaryStats [⟨"c", "b", 3, 0, 0, ["u"], 0⟩] none)).map
      Prod.fst = ["totalFiles", "totalAccesses", "uniqueUsers",
        "uniqueContainers"] := by
  exact ⟨by decide, by decide⟩

/-- C4 amended: the file-snapshot `getSummaryStats` returns a record
whose `averageAccessesPerFile` equals `totalAccesses / totalFiles`
rounded to 2 decimal places when `totalFiles > 0` and `0` when
`totalFiles = 0`, raising no error (in particular on the empty metric
set); the db-backed variant's summary record contains no
`averageAccessesPerFile` field at all. -/
theorem getSummaryStats_average_amended (s : FSState) (c? : Option String)
    (hc : ∀ c, c? = some c → c ≠ "") :
    (∃ st : SummaryStats, fsGetSummaryStats s c? = .ok st ∧
      st.averageAccessesPerFile =
        (if st.totalFiles > 0 then
          roundTo2 ((st.totalAccesses : ℚ) / (st.totalFiles : ℚ)) else 0)) ∧
    fsGetSummaryStats FSState.empty none = .ok ⟨0, 0, 0, 0, 0⟩ ∧
    (∀ (rows : List DbRow) (d? : Option String),
      (dbSummaryJson (dbGetSummaryStats rows d?)).lookup
        "averageAccessesPerFile" = none) := by
  refine ⟨?_, rfl, ?_⟩
  · match c? with
    | none => exact ⟨summaryOf (s.accessMetrics.map Prod.snd), rfl, rfl⟩
    | some c =>
        have hne : c ≠ "" := hc c rfl
        refine ⟨summaryOf ((s.accessMetrics.map Prod.snd).filter
          (fun e => e.container = c)), ?_, rfl⟩
        simp [fsGetSummaryStats, hne]
  · intro rows d?
    simp [dbSummaryJson, List.lookup]

/-- Witness for C4 amended at a one-entry state and no filter. -/
theorem getSummaryStats_average_amended_witness :
    (∃ st : SummaryStats,
      fsGetSummaryStats ⟨[("c/b", ⟨"c", "b", 3, 1, some 2, ["u"]⟩)], false⟩
        none = .ok st ∧
      st.averageAccessesPerFile =
        (if st.totalFiles > 0 then
          roundTo2 ((st.totalAccesses : ℚ) / (st.totalFiles : ℚ)) else 0)) ∧
    fsGetSummaryStats FSState.empty none = .ok ⟨0, 0, 0, 0, 0⟩ ∧
    (∀ (rows : List DbRow) (d? : Option String),
      (dbSummaryJson (dbGetSummaryStats rows d?)).lookup
        "averageAccessesPerFile" = none) :=
  getSummaryStats_average_amended
    ⟨[("c/b", ⟨"c", "b", 3, 1, some 2, ["u"]⟩)], false⟩ none
    (fun _ h => Option.noConfusion h)

/-! ### Bounded recent-user sets (C5) -/

theorem length_jsSliceNeg_le (k : Nat) (hk : 1 ≤ k) (l : List α) :
    (jsSliceNeg k l).length ≤ k := by
  unfold jsSliceNeg
  rw [if_neg (by omega)]
  rw [List.length_drop]
  omega

theorem setAdd_length_le (l : List String) (u : String) :
    (setAdd l u).length ≤ l.length + 1 := by
  unfold setAdd
  split <;> simp

theorem trimRecentUsers_length_le (max : Nat) (hmax : 2 ≤ max)
    (l : List String) : (trimRecentUsers max l).length ≤ max := by
  unfold trimRecentUsers
  split
  · exact le_trans (length_jsSliceNeg_le _ (by omega) l) (by omega)
  · omega

theorem mem_mapSet (m : List (String × α)) (k : String) (v : α) :
    ∀ x ∈ mapSet m k v, x ∈ m ∨ x = (k, v) := by
  induction m with
  | nil => simp [mapSet]
  | cons hd tl ih =>
      obtain ⟨k0, v0⟩ := hd
      intro x hx
      by_cases h : k0 = k
      · simp only [mapSet, h, if_true, List.mem_cons] at hx
        rcases hx with h1 | h1
        · exact Or.inr h1
        · exact Or.inl (List.mem_cons_of_mem _ h1)
      · simp only [mapSet, h, if_false, List.mem_cons] at hx
        rcases hx with h1 | h1
        · exact Or.inl (by simp [h1])
        · rcases ih x h1 with h2 | h2
          · exact Or.inl (List.mem_cons_of_mem _ h2)
          · exact Or.inr h2

/-- The recent-users splice of the db-backed `persistBatch` on a fresh
update (`splice(0, length - maxRecentUsers)` keeps the most recent). -/
def trimUpdateUsers (max : Nat) (l : List String) : List String :=
  if l.length > max then l.drop (l.length - max) else l

/-- A `Metric` cache entry of the db-backed variant. -/
structure Metric where
  container : String
  blob : String
  totalAccesses : Nat
  firstAccessed : Nat
  lastAccessed : Nat
  recentUsers : List String
  deriving Repr, DecidableEq

/-- The row written by `persistBatch` for one update: merged with the
existing row when present (union of user sets trimmed to the most
recent `max`), freshly inserted otherwise. -/
def persistRow (max now : Nat) (existing : Option DbRow) (u : MetricUpdate) :
    DbRow :=
  let recentUsers := trimUpdateUsers max u.recentUsers
  match existing with
  | some row =>
      { row with
          totalAccesses := row.totalAccesses + u.accessCount,
          lastAccessed := u.lastAccessed,
          recentUsers := jsSliceNeg max (dedupFirst (row.recentUsers ++
            recentUsers)),
          updatedAt := now }
  | none =>
      ⟨u.container, u.blob, u.accessCount, u.firstAccessed, u.lastAccessed,
        recentUsers, now⟩

theorem trimUpdateUsers_length_le (max : Nat) (l : List String) :
    (trimUpdateUsers max l).length ≤ max := by
  unfold trimUpdateUsers
  split
  · rw [List.length_drop]
    omega
  · omega

/-- C5: after every completed `recordAccess` call the recent-user set of
every stored entry stays within `maxRecentUsers` (invariant
preservation), and every row written by the db-backed `persistBatch` —
merged or fresh — has at most `maxRecentUsers` recent users. -/
theorem recentUsers_bounded (max : Nat) (hmax : 2 ≤ max) (s : FSState)
    (c b u : String) (t : Nat)
    (hinv : ∀ kv ∈ s.accessMetrics, kv.2.recentUsers.length ≤ max) :
    (∀ kv ∈ (recordAccess max s c b u t).accessMetrics,
      kv.2.recentUsers.length ≤ max) ∧
    (∀ (now : Nat) (existing : Option DbRow) (upd : MetricUpdate),
      (persistRow max now existing upd).recentUsers.length ≤ max) := by
  constructor
  · intro kv hkv
    unfold recordAccess at hkv
    by_cases hv : accessEventValid c b u = true
    · rw [if_pos hv] at hkv
      by_cases hsd : s.isShuttingDown = true
      · rw [if_pos hsd] at hkv
        exact hinv kv hkv
      · rw [if_neg hsd] at hkv
        simp only at hkv
        rcases mem_mapSet _ _ _ kv hkv with h1 | h1
        · exact hinv kv h1
        · rw [h1]
          exact trimRecentUsers_length_le max hmax _
    · rw [if_neg hv] at hkv
      exact hinv kv hkv
  · intro now existing upd
    match existing with
    | some row =>
        simp only [persistRow]
        exact length_jsSliceNeg_le max (by omega) _
    | none =>
        simp only [persistRow]
        exact trimUpdateUsers_length_le max _

/-- Witness for C5 at `max = 100` on a concrete state and update. -/
theorem recentUsers_bounded_witness :
    (∀ kv ∈ (recordAccess 100 FSState.empty "c" "b" "u" 3).accessMetrics,
      kv.2.recentUsers.length ≤ 100) ∧
    (∀ (now : Nat) (existing : Option DbRow) (upd : MetricUpdate),
      (persistRow 100 now existing upd).recentUsers.length ≤ 100) :=
  recentUsers_bounded 100 (by omega) FSState.empty "c" "b" "u" 3
    (by intro kv hkv; cases hkv)

/-! ### `clearMetrics` in production (C6) -/

/-- File-snapshot `clearMetrics`: the production guard throws before
any mutation; otherwise the in-memory map is cleared.  The first
component is the raised error, the second the resulting state. -/
def fsClearMetrics (isProduction : Bool) (s : FSState) :
    Option String × FSState :=
  if isProduction then (some "clearMetrics() is not allowed in production", s)
  else (none, { s with accessMetrics := [] })

/-- Full state of the db-backed collector (buffer, LRU cache, rows). -/
structure DBFull where
  accessBuffer : List DbAccessEvent
  metricsCache : List (String × Metric)
  accessOrder : List String
  rows : List DbRow
  isShuttingDown : Bool
  deriving Repr, DecidableEq

/-- Db-backed `clearMetrics`: the production guard throws before the
buffer, cache, LRU order and table are cleared. -/
def dbClearMetrics (isProduction : Bool) (s : DBFull) :
    Option String × DBFull :=
  if isProduction then (some "clearMetrics() is not allowed in production", s)
  else (none, ⟨[], [], [], [], s.isShuttingDown⟩)

/-- The `action = "clear"` branch of the metrics `POST /` route: in
production it answers 403 Forbidden without invoking `clearMetrics`. -/
def postMetricsClear (isProduction : Bool) (s : DBFull) : Nat × DBFull :=
  if isProduction then (403, s)
  else (200, (dbClearMetrics isProduction s).2)

/-- C6: with the runtime flagged production, `clearMetrics` rejects with
an error in both variants and leaves every stored entry unchanged, and
the metrics action route answers 403 with the state unchanged. -/
theorem clearMetrics_production_rejects (s1 : FSState) (s2 : DBFull) :
    (fsClearMetrics true s1).1.isSome ∧ (fsClearMetrics true s1).2 = s1 ∧
    (dbClearMetrics true s2).1.isSome ∧ (dbClearMetrics true s2).2 = s2 ∧
    postMetricsClear true s2 = (403, s2) := by
  simp [fsClearMetrics, dbClearMetrics, postMetricsClear]

/-! ### Time-range queries (C7) -/

def msPerDay : Nat := 86400000

/-- `d.setUTCHours(23, 59, 59, 999)`: the last millisecond of the UTC
day containing `t`. -/
def setEndOfDayUTC (t : Nat) : Nat := t - t % msPerDay + 86399999

/-- `s.toLowerCase()` (character-wise, as for ASCII container names). -/
def jsToLower (s : String) : String := ⟨s.data.map Char.toLower⟩

def isLowerAlnum (c : Char) : Bool :=
  ('a' ≤ c && c ≤ 'z') || ('0' ≤ c && c ≤ '9')

def containerCharOk (c : Char) : Bool := isLowerAlnum c || c == '-'

/-- Matcher for the tail of `^[a-z0-9][a-z0-9-]*[a-z0-9]$` (everything
after the first character). -/
def regexTail : List Char → Bool
  | [] => false
  | [c] => isLowerAlnum c
  | c :: rest => containerCharOk c && regexTail rest

def regexBody : List Char → Bool
  | [] => false
  | c :: rest => isLowerAlnum c && regexTail rest

/-- `containerNameSchema`: length in `[3, 63]`, lowercased, then the
charset regex; `parse` yields the lowercased name. -/
def containerNameOk (s : String) : Bool :=
  3 ≤ s.length && s.length ≤ 63 && regexBody (jsToLower s).data

structure RangeItem where
  path : String
  container : String
  blob : String
  totalAccesses : Nat
  firstAccessed : Nat
  lastAccessed : Option Nat
  recentUsersCount : Nat
  deriving Repr, DecidableEq

/-- The time filter of `getMetricsByTimeRange`: the entry has been
accessed and its `lastAccessed` lies in `[startDate, endIncl]`. -/
def inTimeRange (startDate endIncl : Nat) (e : MetricEntry) : Bool :=
  match e.lastAccessed with
  | some l => startDate ≤ l && l ≤ endIncl
  | none => false

def toRangeItem (kv : String × MetricEntry) : RangeItem :=
  ⟨kv.1, kv.2.container, kv.2.blob, kv.2.totalAccesses, kv.2.firstAccessed,
    kv.2.lastAccessed, kv.2.recentUsers.length⟩

/-- `MetricsCollector.getMetricsByTimeRange` (file-snapshot variant):
validates `startDate ≤ endDate` (else throws), extends `endDate` to the
end of its UTC day, optionally validates and lowercases the container
filter, and returns the matching entries. -/
def getMetricsByTimeRange (s : FSState) (startDate endDate : Nat)
    (container : Option String) : Except String (List RangeItem) :=
  if startDate ≤ endDate then
    match container with
    | some c =>
        if containerNameOk c then
          .ok ((s.accessMetrics.filter (fun kv =>
            inTimeRange startDate (setEndOfDayUTC endDate) kv.2 &&
            kv.2.container == jsToLower c)).map toRangeItem)
        else .error "Invalid parameters: container name"
    | none =>
        .ok ((s.accessMetrics.filter (fun kv =>
          inTimeRange startDate (setEndOfDayUTC endDate) kv.2)).map toRangeItem)
  else .error "Invalid parameters: Start date must be before or equal to end date"

/-- C7: with `startDate ≤ endDate` the query returns exactly the entries
whose `lastAccessed` lies in `[startDate, end of endDate's day]` (and
whose container matches a given valid filter); an entry last accessed
2025-01-05 is excluded from the range 2025-01-01 .. 2025-01-02; and
`endDate < startDate` is rejected with a validation error. -/
theorem getMetricsByTimeRange_spec (s : FSState) (startDate endDate : Nat)
    (c : String) (hse : startDate ≤ endDate)
    (hc : containerNameOk c = true) :
    (∃ items, getMetricsByTimeRange s startDate endDate none = .ok items ∧
      (∀ it ∈ items, ∃ l, it.lastAccessed = some l ∧
        startDate ≤ l ∧ l ≤ setEndOfDayUTC endDate) ∧
      (∀ kv ∈ s.accessMetrics, ∀ l, kv.2.lastAccessed = some l →
        startDate ≤ l → l ≤ setEndOfDayUTC endDate →
        toRangeItem kv ∈ items)) ∧
    (∃ items, getMetricsByTimeRange s startDate endDate (some c) = .ok items ∧
      (∀ it ∈ items, it.container = jsToLower c ∧ ∃ l,
        it.lastAccessed = some l ∧ startDate ≤ l ∧
        l ≤ setEndOfDayUTC endDate) ∧
      (∀ kv ∈ s.accessMetrics, kv.2.container = jsToLower c →
        ∀ l, kv.2.lastAccessed = some l → startDate ≤ l →
          l ≤ setEndOfDayUTC endDate → toRangeItem kv ∈ items)) ∧
    (∀ (s2 : FSState) (a b : Nat) (c? : Option String), b < a →
      ∃ msg, getMetricsByTimeRange s2 a b c? = .error msg) ∧
    getMetricsByTimeRange
      ⟨[("docs/f", ⟨"docs", "f", 1, 0, some 1736035200000, []⟩)], false⟩
      1735689600000 1735776000000 none = .ok [] := by
  refine ⟨?_, ?_, ?_, rfl⟩
  · refine ⟨_, by rw [getMetricsByTimeRange, if_pos hse], ?_, ?_⟩
    · intro it hit
      rcases List.mem_map.mp hit with ⟨kv, hkv, hkvit⟩
      have hp := (List.mem_filter.mp hkv).2
      rw [inTimeRange] at hp
      match hl : kv.2.lastAccessed with
      | some l =>
          rw [hl] at hp
          simp only [Bool.and_eq_true, decide_eq_true_eq] at hp
          exact ⟨l, by rw [← hkvit]; exact hl, hp.1, hp.2⟩
      | none => rw [hl] at hp; cases hp
    · intro kv hkv l hl h1 h2
      refine List.mem_map_of_mem toRangeItem (List.mem_filter.mpr ⟨hkv, ?_⟩)
      rw [inTimeRange, hl]
      simp [h1, h2]
  · refine ⟨(s.accessMetrics.filter (fun kv =>
        inTimeRange startDate (setEndOfDayUTC endDate) kv.2 &&
        kv.2.container == jsToLower c)).map toRangeItem, ?_, ?_, ?_⟩
    · rw [getMetricsByTimeRange, if_pos hse]
      simp [hc]
    · intro it hit
      rcases List.mem_map.mp hit with ⟨kv, hkv, hkvit⟩
      have hp := (List.mem_filter.mp hkv).2
      simp only [Bool.and_eq_true, beq_iff_eq] at hp
      have hcontainer : it.container = jsToLower c := by
        rw [← hkvit]; exact hp.2
      have htime := hp.1
      rw [inTimeRange] at htime
      match hl : kv.2.lastAccessed with
      | some l =>
          rw [hl] at htime
          simp only [Bool.and_eq_true, decide_eq_true_eq] at htime
          exact ⟨hcontainer, l, by rw [← hkvit]; exact hl, htime.1, htime.2⟩
      | none => rw [hl] at htime; cases htime
    · intro kv hkv hcc l hl h1 h2
      refine List.mem_map_of_mem toRangeItem (List.mem_filter.mpr ⟨hkv, ?_⟩)
      simp only [Bool.and_eq_true, beq_iff_eq]
      refine ⟨?_, hcc⟩
      rw [inTimeRange, hl]
      simp [h1, h2]
  · intro s2 a b c? hba
    exact ⟨"Invalid parameters: Start date must be before or equal to end date",
      by rw [getMetricsByTimeRange.eq_def, if_neg (by omega)]⟩

/-- Witness for C7 with a valid container filter on a one-entry store
whose entry lies inside the queried range. -/
theorem getMetricsByTimeRange_spec_witness :
    ((∃ items, getMetricsByTimeRange
        ⟨[("docs/f", ⟨"docs", "f", 1, 0, some 1736035200000, []⟩)], false⟩
        0 1736035200000 none = .ok items ∧
      (∀ it ∈ items, ∃ l, it.lastAccessed = some l ∧
        0 ≤ l ∧ l ≤ setEndOfDayUTC 1736035200000) ∧
      (∀ kv ∈ (⟨[("docs/f", ⟨"docs", "f", 1, 0, some 1736035200000, []⟩)],
          false⟩ : FSState).accessMetrics, ∀ l, kv.2.lastAccessed = some l →
        0 ≤ l → l ≤ setEndOfDayUTC 1736035200000 → toRangeItem kv ∈ items)) ∧
    (∃ items, getMetricsByTimeRange
        ⟨[("docs/f", ⟨"docs", "f", 1, 0, some 1736035200000, []⟩)], false⟩
        0 1736035200000 (some "docs") = .ok items ∧
      (∀ it ∈ items, it.container = jsToLower "docs" ∧ ∃ l,
        it.lastAccessed = some l ∧ 0 ≤ l ∧
        l ≤ setEndOfDayUTC 1736035200000) ∧
      (∀ kv ∈ (⟨[("docs/f", ⟨"docs", "f", 1, 0, some 1736035200000, []⟩)],
          false⟩ : FSState).accessMetrics,
        kv.2.container = jsToLower "docs" →
        ∀ l, kv.2.lastAccessed = some l → 0 ≤ l →
          l ≤ setEndOfDayUTC 1736035200000 → toRangeItem kv ∈ items)) ∧
    (∀ (s2 : FSState) (a b : Nat) (c? : Option String), b < a →
      ∃ msg, getMetricsByTimeRange s2 a b c? = .error msg) ∧
    getMetricsByTimeRange
      ⟨[("docs/f", ⟨"docs", "f", 1, 0, some 1736035200000, []⟩)], false⟩
      1735689600000 1735776000000 none = .ok []) :=
  getMetricsByTimeRange_spec
    ⟨[("docs/f", ⟨"docs", "f", 1, 0, some 1736035200000, []⟩)], false⟩
    0 1736035200000 "docs" (by omega) (by decide)

/-! ### Top accessed files and limit validation (C8, C10) -/

/-- `MetricsCollector.validateLimit`: an integer in `[1, 1000]` is kept,
anything else falls back to the default `10` with a logged warning
(never an error). -/
def validateLimit (limit : ℚ) : Nat :=
  if limit.den = 1 ∧ 1 ≤ limit.num ∧ limit.num ≤ 1000 then limit.num.toNat
  else 10

structure AccessedFile where
  path : String
  container : String
  blob : String
  storageType : String
  totalAccesses : Nat
  firstAccessed : Nat
  lastAccessed : Option Nat
  recentUsersCount : Nat
  recentUsers : List String
  deriving Repr, DecidableEq

def toAccessedFile (storageType : String) (kv : String × MetricEntry) :
    AccessedFile :=
  ⟨kv.1, kv.2.container, kv.2.blob, storageType, kv.2.totalAccesses,
    kv.2.firstAccessed, kv.2.lastAccessed, kv.2.recentUsers.length,
    kv.2.recentUsers⟩

/-- The comparator `(a, b) => b.totalAccesses - a.totalAccesses`:
descending by total accesses. -/
def byTotalDesc (a b : String × MetricEntry) : Prop :=
  b.2.totalAccesses ≤ a.2.totalAccesses

instance : DecidableRel byTotalDesc := fun a b =>
  inferInstanceAs (Decidable (b.2.totalAccesses ≤ a.2.totalAccesses))

instance : IsTotal (String × MetricEntry) byTotalDesc :=
  ⟨fun a b => (le_total b.2.totalAccesses a.2.totalAccesses).imp id id⟩

instance : IsTrans (String × MetricEntry) byTotalDesc :=
  ⟨fun _ _ _ h1 h2 => le_trans h2 h1⟩

/-- `entries.sort((a, b) => b.totalAccesses - a.totalAccesses)` (stable). -/
def sortByTotalDesc (l : List (String × MetricEntry)) :
    List (String × MetricEntry) :=
  l.insertionSort byTotalDesc

/-- `MetricsCollector.getTopAccessedFiles` (file-snapshot variant):
limit validated with fallback, optional container filter (an empty
filter string throws), sort descending by `totalAccesses`, truncate. -/
def getTopAccessedFiles (s : FSState) (storageType : String) (limit : ℚ)
    (container : Option String) : Except String (List AccessedFile) :=
  match container with
  | some c =>
      if c = "" then .error "Container name cannot be empty"
      else .ok (((sortByTotalDesc (s.accessMetrics.filter
          (fun kv => kv.2.container = c))).take (validateLimit limit)).map
        (toAccessedFile storageType))
  | none =>
      .ok (((sortByTotalDesc s.accessMetrics).take (validateLimit limit)).map
        (toAccessedFile storageType))

theorem sorted_take_map (l : List (String × MetricEntry)) (n : Nat)
    (stype : String) :
    List.Sorted (fun a b : AccessedFile => b.totalAccesses ≤ a.totalAccesses)
      (((sortByTotalDesc l).take n).map (toAccessedFile stype)) := by
  refine List.Pairwise.map _ (fun a b h => h) ?_
  exact List.Pairwise.sublist (List.take_sublist n _)
    (List.sorted_insertionSort byTotalDesc l)

/-- C8: `getTopAccessedFiles` returns exactly the truncation to the
validated limit of the stable descending-by-`totalAccesses` sort of the
matching entries — both unfiltered and under any non-empty container
filter — hence sorted descending, at most `limit` long and drawn from
the (filtered) store; on three entries with totals `[10, 5, 1]` and
`limit = 2` it returns exactly the two entries with totals 10 and 5, in
that order. -/
theorem getTopAccessedFiles_spec (s : FSState) (stype : String) (limit : ℚ)
    (items : List AccessedFile)
    (hok : getTopAccessedFiles s stype limit none = .ok items) :
    List.Sorted (fun a b : AccessedFile => b.totalAccesses ≤ a.totalAccesses)
      items ∧
    items.length ≤ validateLimit limit ∧
    (∀ it ∈ items, ∃ kv ∈ s.accessMetrics, toAccessedFile stype kv = it) ∧
    items = ((sortByTotalDesc s.accessMetrics).take
      (validateLimit limit)).map (toAccessedFile stype) ∧
    (∀ c : String, c ≠ "" →
      ∃ fitems, getTopAccessedFiles s stype limit (some c) = .ok fitems ∧
        fitems = ((sortByTotalDesc (s.accessMetrics.filter
            (fun kv => kv.2.container = c))).take
          (validateLimit limit)).map (toAccessedFile stype) ∧
        List.Sorted (fun a b : AccessedFile =>
          b.totalAccesses ≤ a.totalAccesses) fitems ∧
        fitems.length ≤ validateLimit limit ∧
        (∀ it ∈ fitems, it.container = c ∧
          ∃ kv ∈ s.accessMetrics, toAccessedFile stype kv = it)) ∧
    getTopAccessedFiles
      ⟨[("c/x", ⟨"c", "x", 10, 0, some 1, []⟩),
        ("c/y", ⟨"c", "y", 5, 0, some 1, []⟩),
        ("c/z", ⟨"c", "z", 1, 0, some 1, []⟩)], false⟩ stype 2 none
      = .ok [⟨"c/x", "c", "x", stype, 10, 0, some 1, 0, []⟩,
             ⟨"c/y", "c", "y", stype, 5, 0, some 1, 0, []⟩] := by
  have hitems : items = ((sortByTotalDesc s.accessMetrics).take
      (validateLimit limit)).map (toAccessedFile stype) := by
    have h := hok
    simp only [getTopAccessedFiles] at h
    exact ((Except.ok.injEq _ _).mp h).symm
  refine ⟨?_, ?_, ?_, hitems, ?_, rfl⟩
  · rw [hitems]; exact sorted_take_map _ _ _
  · rw [hitems, List.length_map]
    exact le_trans (List.length_take_le _ _) le_rfl
  · intro it hit
    rw [hitems] at hit
    rcases List.mem_map.mp hit with ⟨kv, hkv, hkvit⟩
    have hmem : kv ∈ sortByTotalDesc s.accessMetrics :=
      (List.take_sublist _ _).mem hkv
    have hperm := List.perm_insertionSort byTotalDesc s.accessMetrics
    exact ⟨kv, hperm.mem_iff.mp hmem, hkvit⟩
  · intro c hc
    refine ⟨((sortByTotalDesc (s.accessMetrics.filter
        (fun kv => kv.2.container = c))).take
      (validateLimit limit)).map (toAccessedFile stype), ?_, rfl, ?_, ?_, ?_⟩
    · simp only [getTopAccessedFiles]
      rw [if_neg hc]
    · exact sorted_take_map _ _ _
    · rw [List.length_map]
      exact le_trans (List.length_take_le _ _) le_rfl
    · intro it hit
      rcases List.mem_map.mp hit with ⟨kv, hkv, hkvit⟩
      have hmem : kv ∈ sortByTotalDesc (s.accessMetrics.filter
          (fun kv => kv.2.container = c)) :=
        (List.take_sublist _ _).mem hkv
      have hperm := List.perm_insertionSort byTotalDesc
        (s.accessMetrics.filter (fun kv => kv.2.container = c))
      have hf := hperm.mem_iff.mp hmem
      obtain ⟨hin, hpc⟩ := List.mem_filter.mp hf
      have hcc : kv.2.container = c := by simpa using hpc
      constructor
      · rw [← hkvit]; exact hcc
      · exact ⟨kv, hin, hkvit⟩

/-- Witness for C8 at the three-entry store of the claim. -/
theorem getTopAccessedFiles_spec_witness :
    (List.Sorted (fun a b : AccessedFile => b.totalAccesses ≤ a.totalAccesses)
      [⟨"c/x", "c", "x", "azure", 10, 0, some 1, 0, []⟩,
       ⟨"c/y", "c", "y", "azure", 5, 0, some 1, 0, []⟩] ∧
    ([⟨"c/x", "c", "x", "azure", 10, 0, some 1, 0, []⟩,
      ⟨"c/y", "c", "y", "azure", 5, 0, some 1, 0, []⟩] :
        List AccessedFile).length ≤ validateLimit 2 ∧
    (∀ it ∈ ([⟨"c/x", "c", "x", "azure", 10, 0, some 1, 0, []⟩,
      ⟨"c/y", "c", "y", "azure", 5, 0, some 1, 0, []⟩] : List AccessedFile),
      ∃ kv ∈ (⟨[("c/x", ⟨"c", "x", 10, 0, some 1, []⟩),
        ("c/y", ⟨"c", "y", 5, 0, some 1, []⟩),
        ("c/z", ⟨"c", "z", 1, 0, some 1, []⟩)], false⟩ :
          FSState).accessMetrics, toAccessedFile "azure" kv = it) ∧
    ([⟨"c/x", "c", "x", "azure", 10, 0, some 1, 0, []⟩,
      ⟨"c/y", "c", "y", "azure", 5, 0, some 1, 0, []⟩] : List AccessedFile)
      = ((sortByTotalDesc (⟨[("c/x", ⟨"c", "x", 10, 0, some 1, []⟩),
          ("c/y", ⟨"c", "y", 5, 0, some 1, []⟩),
          ("c/z", ⟨"c", "z", 1, 0, some 1, []⟩)], false⟩ :
            FSState).accessMetrics).take
        (validateLimit 2)).map (toAccessedFile "azure") ∧
    (∀ c : String, c ≠ "" →
      ∃ fitems, getTopAccessedFiles
          ⟨[("c/x", ⟨"c", "x", 10, 0, some 1, []⟩),
            ("c/y", ⟨"c", "y", 5, 0, some 1, []⟩),
            ("c/z", ⟨"c", "z", 1, 0, some 1, []⟩)], false⟩ "azure" 2 (some c)
          = .ok fitems ∧
        fitems = ((sortByTotalDesc ((⟨[("c/x", ⟨"c", "x", 10, 0, some 1, []⟩),
            ("c/y", ⟨"c", "y", 5, 0, some 1, []⟩),
            ("c/z", ⟨"c", "z", 1, 0, some 1, []⟩)], false⟩ :
              FSState).accessMetrics.filter
            (fun kv => kv.2.container = c))).take
          (validateLimit 2)).map (toAccessedFile "azure") ∧
        List.Sorted (fun a b : AccessedFile =>
          b.totalAccesses ≤ a.totalAccesses) fitems ∧
        fitems.length ≤ validateLimit 2 ∧
        (∀ it ∈ fitems, it.container = c ∧
          ∃ kv ∈ (⟨[("c/x", ⟨"c", "x", 10, 0, some 1, []⟩),
            ("c/y", ⟨"c", "y", 5, 0, some 1, []⟩),
            ("c/z", ⟨"c", "z", 1, 0, some 1, []⟩)], false⟩ :
              FSState).accessMetrics, toAccessedFile "azure" kv = it)) ∧
    getTopAccessedFiles
      ⟨[("c/x", ⟨"c", "x", 10, 0, some 1, []⟩),
        ("c/y", ⟨"c", "y", 5, 0, some 1, []⟩),
        ("c/z", ⟨"c", "z", 1, 0, some 1, []⟩)], false⟩ "azure" 2 none
      = .ok [⟨"c/x", "c", "x", "azure", 10, 0, some 1, 0, []⟩,
             ⟨"c/y", "c", "y", "azure", 5, 0, some 1, 0, []⟩]) :=
  getTopAccessedFiles_spec
    ⟨[("c/x", ⟨"c", "x", 10, 0, some 1, []⟩),
      ("c/y", ⟨"c", "y", 5, 0, some 1, []⟩),
      ("c/z", ⟨"c", "z", 1, 0, some 1, []⟩)], false⟩ "azure" 2 _ rfl

/-- C10: for every limit that is not an integer in `[1, 1000]`,
`getTopAccessedFiles` raises no error and returns exactly the result of
the call with the default limit `10`. -/
theorem getTopAccessedFiles_invalid_limit (s : FSState) (stype : String)
    (limit : ℚ) (c? : Option String)
    (hbad : ¬ (limit.den = 1 ∧ 1 ≤ limit.num ∧ limit.num ≤ 1000)) :
    getTopAccessedFiles s stype limit c? =
      getTopAccessedFiles s stype 10 c? := by
  have h1 : validateLimit limit = 10 := by rw [validateLimit, if_neg hbad]
  have h2 : validateLimit 10 = 10 := by decide
  rw [getTopAccessedFiles.eq_def, getTopAccessedFiles.eq_def, h1, h2]

/-- Witness for C10 at `limit = 0` on a one-entry store. -/
theorem getTopAccessedFiles_invalid_limit_witness :
    getTopAccessedFiles ⟨[("c/x", ⟨"c", "x", 10, 0, some 1, []⟩)], false⟩
      "s3" 0 none =
    getTopAccessedFiles ⟨[("c/x", ⟨"c", "x", 10, 0, some 1, []⟩)], false⟩
      "s3" 10 none :=
  getTopAccessedFiles_invalid_limit _ "s3" 0 none (by decide)

/-! ### CSV export (C9)

The `/:container/export` route's CSV branch: a fixed header line
followed by one joined row per metric returned by `getAccessedFiles`
(whose rows have non-null dates, serialized with `toISOString`). -/

/-- A row of the export data, as validated by `accessedFilesSchema`. -/
structure ExportMetric where
  container : String
  blob : String
  totalAccesses : Nat
  firstAccessed : Nat
  lastAccessed : Nat
  recentUsersCount : Nat
  deriving Repr, DecidableEq

/-- `Array.prototype.join(sep)`. -/
def joinSep (sep : String) : List String → String
  | [] => ""
  | [x] => x
  | x :: xs => x ++ sep ++ joinSep sep xs

/-- The header line of the CSV export (the source appends `"\n"`). -/
def csvHeaderLine : String :=
  "Path,Container/Bucket,Blob/Key,Storage Type,Total Accesses,First Accessed,Last Accessed,Recent Users Count"

/-- The six fields of one CSV data row, in source order. -/
def csvRowFields (m : ExportMetric) : List String :=
  [m.container, "\"" ++ m.blob ++ "\"", natStr m.totalAccesses,
   isoString m.firstAccessed, isoString m.lastAccessed,
   natStr m.recentUsersCount]

def csvRow (m : ExportMetric) : String := joinSep "," (csvRowFields m)

/-- The full CSV text: `csvHeader + csvRows` of the source. -/
def csvText (ms : List ExportMetric) : String :=
  csvHeaderLine ++ "\n" ++ joinSep "\n" (ms.map csvRow)

def countChar (c : Char) (s : String) : Nat :=
  (s.data.filter (fun x => x = c)).length

/-- Number of comma-separated fields of a line. -/
def csvFieldCount (s : String) : Nat := countChar ',' s + 1

/-- Counterexample to C9 as stated: the header row has 8 columns
(`Path`, `Container/Bucket`, `Blob/Key`, `Storage Type`, `Total
Accesses`, `First Accessed`, `Last Accessed`, `Recent Users Count`),
while every data row has only 6 fields, so data rows do not have the
same number of fields as the header (and the header is not the claimed
6-column `Path/Container,Blob,...` layout). -/
theorem csv_field_count_mismatch_cex :
    csvFieldCount csvHeaderLine = 8 ∧
    csvFieldCount (csvRow ⟨"docs", "a.txt", 3, 0, 0, 2⟩) = 6 ∧
    (6 : Nat) ≠ 8 ∧
    csvRow ⟨"docs", "a.txt", 3, 0, 0, 2⟩ =
      "docs,\"a.txt\",3,1970-01-01T00:00:00.000Z,1970-01-01T00:00:00.000Z,2" := by
  exact ⟨by decide, by decide, by decide, by decide⟩

theorem digitChar_safe (n : Nat) :
    digitChar n ≠ ',' ∧ digitChar n ≠ '\n' := by
  unfold digitChar
  split <;> exact ⟨by decide, by decide⟩

theorem natCharsGo_safe (fuel : Nat) :
    ∀ (n : Nat), ∀ c ∈ natCharsGo fuel n, c ≠ ',' ∧ c ≠ '\n' := by
  induction fuel with
  | zero =>
      intro n c hc
      rw [natCharsGo, List.mem_singleton] at hc
      rw [hc]
      exact ⟨by decide, by decide⟩
  | succ fuel ih =>
      intro n c hc
      rw [natCharsGo] at hc
      split at hc
      · rw [List.mem_singleton] at hc
        rw [hc]
        exact digitChar_safe n
      · rw [List.mem_append] at hc
        rcases hc with hc | hc
        · exact ih (n / 10) c hc
        · rw [List.mem_singleton] at hc
          rw [hc]
          exact digitChar_safe (n % 10)

theorem natChars_safe (n : Nat) :
    ∀ c ∈ natChars n, c ≠ ',' ∧ c ≠ '\n' :=
  natCharsGo_safe n n

theorem padChars_safe (w : Nat) (l : List Char)
    (hl : ∀ c ∈ l, c ≠ ',' ∧ c ≠ '\n') :
    ∀ c ∈ padChars w l, c ≠ ',' ∧ c ≠ '\n' := by
  intro c hc
  rw [padChars, List.mem_append] at hc
  rcases hc with hc | hc
  · rw [List.eq_of_mem_replicate hc]
    exact ⟨by decide, by decide⟩
  · exact hl c hc

theorem safeChars_append {l1 l2 : List Char}
    (h1 : ∀ c ∈ l1, c ≠ ',' ∧ c ≠ '\n')
    (h2 : ∀ c ∈ l2, c ≠ ',' ∧ c ≠ '\n') :
    ∀ c ∈ l1 ++ l2, c ≠ ',' ∧ c ≠ '\n' := by
  intro c hc
  rw [List.mem_append] at hc
  rcases hc with h | h
  · exact h1 c h
  · exact h2 c h

theorem isoChars_safe (t : Nat) :
    ∀ c ∈ isoChars t, c ≠ ',' ∧ c ≠ '\n' := by
  simp only [isoChars, pad2, pad3, pad4, padChars]
  repeat' apply safeChars_append
  all_goals first
    | exact natChars_safe _
    | (intro c hc
       rw [List.eq_of_mem_replicate hc]
       exact ⟨by decide, by decide⟩)
    | (intro c hc
       rw [List.mem_singleton] at hc
       subst hc
       exact ⟨by decide, by decide⟩)

/-- Strings free of commas and newlines, as the CSV layout assumes. -/
def csvSafe (s : String) : Prop :=
  countChar ',' s = 0 ∧ countChar '\n' s = 0

theorem countChar_append (c : Char) (s t : String) :
    countChar c (s ++ t) = countChar c s + countChar c t := by
  unfold countChar
  have h : (s ++ t).data = s.data ++ t.data := rfl
  rw [h, List.filter_append, List.length_append]

theorem countChar_eq_zero_of_safe (c : Char) (l : List Char)
    (hl : ∀ x ∈ l, x ≠ c) : countChar c ⟨l⟩ = 0 := by
  unfold countChar
  simp only [List.length_eq_zero]
  rw [List.filter_eq_nil_iff]
  intro a ha
  simpa using hl a ha

theorem countChar_natStr (c : Char) (hc : c = ',' ∨ c = '\n') (n : Nat) :
    countChar c (natStr n) = 0 := by
  refine countChar_eq_zero_of_safe c (natChars n) (fun x hx => ?_)
  rcases hc with h | h <;> rw [h]
  · exact (natChars_safe n x hx).1
  · exact (natChars_safe n x hx).2

theorem countChar_isoString (c : Char) (hc : c = ',' ∨ c = '\n') (t : Nat) :
    countChar c (isoString t) = 0 := by
  refine countChar_eq_zero_of_safe c (isoChars t) (fun x hx => ?_)
  rcases hc with h | h <;> rw [h]
  · exact (isoChars_safe t x hx).1
  · exact (isoChars_safe t x hx).2

/-- Comma/newline count of a separator-joined list whose members all
have the given count zero. -/
theorem countChar_joinSep (c : Char) (sep : String) :
    ∀ (l : List String), l ≠ [] → (∀ f ∈ l, countChar c f = 0) →
      countChar c (joinSep sep l) = (l.length - 1) * countChar c sep := by
  intro l
  induction l with
  | nil => intro h _; exact absurd rfl h
  | cons x xs ih =>
      intro _ hf
      cases xs with
      | nil => simpa [joinSep] using hf x (by simp)
      | cons y ys =>
          have hj : joinSep sep (x :: y :: ys)
              = x ++ sep ++ joinSep sep (y :: ys) := rfl
          have hx : countChar c x = 0 := hf x (by simp)
          have hrest : countChar c (joinSep sep (y :: ys))
              = ((y :: ys).length - 1) * countChar c sep :=
            ih (by simp) (fun f h => hf f (by simp [h]))
          rw [hj, countChar_append, countChar_append, hx, hrest]
          simp only [List.length_cons]
          have h1 : ys.length + 1 - 1 = ys.length := by omega
          have h2 : ys.length + 1 + 1 - 1 = ys.length + 1 := by omega
          rw [h1, h2]
          ring

theorem csvRow_comma_count (m : ExportMetric)
    (hcont : countChar ',' m.container = 0)
    (hblob : countChar ',' m.blob = 0) :
    countChar ',' (csvRow m) = 5 := by
  rw [csvRow, countChar_joinSep ',' "," (csvRowFields m) (by simp [csvRowFields])]
  · simp [csvRowFields]
    decide
  · intro f hf
    simp only [csvRowFields, List.mem_cons, List.not_mem_nil, or_false] at hf
    rcases hf with h | h | h | h | h | h <;> rw [h]
    · exact hcont
    · rw [countChar_append, countChar_append, hblob]
      decide
    · exact countChar_natStr ',' (Or.inl rfl) _
    · exact countChar_isoString ',' (Or.inl rfl) _
    · exact countChar_isoString ',' (Or.inl rfl) _
    · exact countChar_natStr ',' (Or.inl rfl) _

theorem csvRow_newline_count (m : ExportMetric)
    (hcont : countChar '\n' m.container = 0)
    (hblob : countChar '\n' m.blob = 0) :
    countChar '\n' (csvRow m) = 0 := by
  rw [csvRow, countChar_joinSep '\n' "," (csvRowFields m)
    (by simp [csvRowFields])]
  · rw [(by decide : countChar '\n' "," = 0), Nat.mul_zero]
  · intro f hf
    simp only [csvRowFields, List.mem_cons, List.not_mem_nil, or_false] at hf
    rcases hf with h | h | h | h | h | h <;> rw [h]
    · exact hcont
    · rw [countChar_append, countChar_append, hblob]
      decide
    · exact countChar_natStr '\n' (Or.inr rfl) _
    · exact countChar_isoString '\n' (Or.inr rfl) _
    · exact countChar_isoString '\n' (Or.inr rfl) _
    · exact countChar_natStr '\n' (Or.inr rfl) _

/-- C9 amended: the CSV export is exactly the newline-join of the
8-column header row `Path,Container/Bucket,Blob/Key,Storage
Type,Total Accesses,First Accessed,Last Accessed,Recent Users Count`
followed by one row per exported entry in order (so its newline count
equals the entry count, with no trailing newline); each data row has 6
comma-separated fields — the container, the double-quoted blob,
`totalAccesses`, the two timestamps serialized as ISO-8601 strings by
`toISOString`, and `recentUsersCount` — i.e. two fewer fields than the
header. -/
theorem csvExport_layout_amended (ms : List ExportMetric) (hms : ms ≠ [])
    (hsafe : ∀ m ∈ ms, csvSafe m.container ∧ csvSafe m.blob) :
    csvFieldCount csvHeaderLine = 8 ∧
    csvText ms = joinSep "\n" (csvHeaderLine :: ms.map csvRow) ∧
    (∀ m ∈ ms, csvFieldCount (csvRow m) = 6 ∧
      csvRowFields m = [m.container, "\"" ++ m.blob ++ "\"",
        natStr m.totalAccesses, isoString m.firstAccessed,
        isoString m.lastAccessed, natStr m.recentUsersCount]) ∧
    countChar '\n' (csvText ms) = ms.length := by
  refine ⟨by decide, ?_, ?_, ?_⟩
  · obtain ⟨m, ms', rfl⟩ : ∃ m ms', ms = m :: ms' := by
      cases ms with
      | nil => exact absurd rfl hms
      | cons m ms' => exact ⟨m, ms', rfl⟩
    rfl
  · intro m hm
    refine ⟨?_, rfl⟩
    rw [csvFieldCount, csvRow_comma_count m ((hsafe m hm).1).1
      ((hsafe m hm).2).1]
  · rw [csvText, countChar_append, countChar_append]
    have hrows : countChar '\n' (joinSep "\n" (ms.map csvRow))
        = (ms.length - 1) * 1 := by
      rw [countChar_joinSep '\n' "\n" (ms.map csvRow)
        (by simpa using hms)]
      · rw [List.length_map, (by decide : countChar '\n' "\n" = 1)]
      · intro f hf
        rcases List.mem_map.mp hf with ⟨m, hm, hfm⟩
        rw [← hfm]
        exact csvRow_newline_count m ((hsafe m hm).1).2 ((hsafe m hm).2).2
    rw [hrows]
    have h0 : countChar '\n' csvHeaderLine = 0 := by decide
    have h1 : countChar '\n' "\n" = 1 := by decide
    rw [h0, h1]
    have : ms.length ≠ 0 := fun h => hms (List.length_eq_zero.mp h)
    omega

/-- Witness for C9 amended on a one-entry export. -/
theorem csvExport_layout_amended_witness :
    csvFieldCount csvHeaderLine = 8 ∧
    csvText [(⟨"docs", "a.txt", 3, 0, 0, 2⟩ : ExportMetric)]
      = joinSep "\n" (csvHeaderLine ::
        [(⟨"docs", "a.txt", 3, 0, 0, 2⟩ : ExportMetric)].map csvRow) ∧
    (∀ m ∈ [(⟨"docs", "a.txt", 3, 0, 0, 2⟩ : ExportMetric)],
      csvFieldCount (csvRow m) = 6 ∧
      csvRowFields m = [m.container, "\"" ++ m.blob ++ "\"",
        natStr m.totalAccesses, isoString m.firstAccessed,
        isoString m.lastAccessed, natStr m.recentUsersCount]) ∧
    countChar '\n' (csvText [(⟨"docs", "a.txt", 3, 0, 0, 2⟩ : ExportMetric)])
      = [(⟨"docs", "a.txt", 3, 0, 0, 2⟩ : ExportMetric)].length :=
  csvExport_layout_amended [⟨"docs", "a.txt", 3, 0, 0, 2⟩] (by simp)
    (by intro m hm
        rw [List.mem_singleton] at hm
        subst hm
        exact ⟨⟨by decide, by decide⟩, by decide, by decide⟩)

/-- Witness for C1 at a concrete two-call sequence. -/
theorem recordAccess_sequence_counts_witness :
    ∃ entry : MetricEntry,
      mapGet (applyEvents 100 FSState.empty "docs" "a.txt"
          [("u1", 5), ("u2", 9)]).accessMetrics ("docs" ++ "/" ++ "a.txt")
        = some entry ∧
      entry.totalAccesses = [("u1", 5), ("u2", 9)].length ∧
      entry.firstAccessed = ("u1", (5 : Nat)).2 ∧
      entry.lastAccessed = some (([(("u2" : String), (9 : Nat))].getLastD
        ("u1", 5)).2) ∧
      mapGet (persistSnapshot (applyEvents 100 FSState.empty "docs" "a.txt"
          [("u1", 5), ("u2", 9)])) ("docs" ++ "/" ++ "a.txt")
        = some (serializeEntry entry) :=
  recordAccess_sequence_counts 100 "docs" "a.txt" (by decide) (by decide)
    ("u1", 5) [("u2", 9)] (by decide) FSState.empty rfl rfl

end StorageProxy
